import Mathlib

/-!
Shallow embedding of `tsql.py`, a toy in-memory SQL engine.

The source has two components:
* `ToySQLParser._parse_where` — compiles a WHERE clause text into a row
  predicate via the regex
  `(?P<left>\w+)\s*(?P<operator>=|!=|<|<=|>|>=)\s*(?P<right>.+)`
  followed by an if/elif dispatch on the operator string;
* `ToyDB` — a table store (dict from table name to a list of rows, each row
  a dict from column name to string value) with `_execute_select`,
  `_execute_insert`, `_execute_update`, `_execute_delete` and `create_table`.

Rows and the store are embedded as insertion-ordered association lists with
Python-dict semantics (assignment to an existing key keeps its position,
assignment to a new key appends at the end).  Python exceptions become an
explicit error type; statement execution returns the (possibly partially
mutated) store next to the `Except` result, because the source mutates the
stored lists in place and some of those mutations happen before a raise.
Python string comparison is lexicographic on code points, which is exactly
`String.lt` / `String.le` in Lean, and `list.sort(key=...)` is a stable sort
by the key; stable sorting by a total preorder has a unique result, so it is
embedded as insertion sort with the stability convention of
`List.orderedInsert`.
-/

namespace Tsql

instance {ε α : Type} [DecidableEq ε] [DecidableEq α] : DecidableEq (Except ε α) := fun
  | .error a, .error b =>
    if h : a = b then .isTrue (by rw [h])
    else .isFalse (fun hh => h (by injection hh))
  | .error _, .ok _ => .isFalse (fun hh => Except.noConfusion hh)
  | .ok _, .error _ => .isFalse (fun hh => Except.noConfusion hh)
  | .ok a, .ok b =>
    if h : a = b then .isTrue (by rw [h])
    else .isFalse (fun hh => h (by injection hh))

/-- A row: Python dict from column name to string value, insertion ordered. -/
abbrev Row := List (String × String)

/-- A table: Python list of rows, insertion ordered. -/
abbrev Table := List Row

/-- The table store: Python dict from table name to table. -/
abbrev Store := List (String × Table)

/-- Python `d.get(k)` / `d[k]` lookup on an insertion-ordered dict. -/
def alistGet {β : Type} : List (String × β) → String → Option β
  | [], _ => none
  | (k, v) :: rest, key => if k = key then some v else alistGet rest key

/-- Python `d[k] = v` on an insertion-ordered dict: an existing key keeps its
position, a new key is appended at the end. -/
def alistSet {β : Type} : List (String × β) → String → β → List (String × β)
  | [], key, v => [(key, v)]
  | (k, w) :: rest, key, v =>
    if k = key then (key, v) :: rest else (k, w) :: alistSet rest key v

/-- `row[c]` lookup. -/
def rowGet (r : Row) (c : String) : Option String := alistGet r c

/-- `row[c] = v` assignment. -/
def rowSet (r : Row) (c v : String) : Row := alistSet r c v

/-- Folding `row[c] = v` over a list of pairs, starting from `r`
(the inner loop body of `_execute_update`, and dict construction). -/
def rowInsertAll (r : Row) (ps : List (String × String)) : Row :=
  ps.foldl (fun acc p => rowSet acc p.1 p.2) r

/-- Python `dict(pairs)` / a dict comprehension over `pairs`: later
occurrences of a key overwrite earlier ones. -/
def rowOfPairs (ps : List (String × String)) : Row := rowInsertAll [] ps

/-- The exceptions the source can raise, one constructor per distinct
`raise` site relevant to execution and predicate compilation:
* `unsupportedCondition c` — `ValueError("Unsupported WHERE condition: {c}")`;
* `unsupportedOperator o` — `ValueError("Unsupported operator in WHERE condition: {o}")`;
* `tableNotFound t` — the ValueError saying table t does not exist;
* `tableExists t` — the ValueError saying table t already exists;
* `columnValueMismatch` — the `ValueError` raised by `zip(..., strict=True)`;
* `rowKey c` — `KeyError(c)` from a `row[c]` lookup. -/
inductive Err : Type where
  | unsupportedCondition (cond : String)
  | unsupportedOperator (op : String)
  | tableNotFound (table : String)
  | tableExists (table : String)
  | columnValueMismatch
  | rowKey (col : String)
deriving DecidableEq

/-- The six comparison operators of the `_parse_where` dispatch. -/
inductive Op : Type where
  | eq | ne | lt | le | gt | ge
deriving DecidableEq

/-- A compiled predicate: the data captured by the closure that
`_parse_where` returns — column name, operator, and the right-hand literal
text (already stripped). -/
structure Pred : Type where
  left : String
  op : Op
  right : String
deriving DecidableEq

/-- Python string `<`: strict lexicographic comparison of the code-point
sequences. -/
def lexLt : List Char → List Char → Bool
  | [], [] => false
  | [], _ :: _ => true
  | _ :: _, [] => false
  | a :: as_, b :: bs =>
    if a.toNat < b.toNat then true
    else if b.toNat < a.toNat then false
    else lexLt as_ bs

/-- Python string `<=`: lexicographic comparison of the code-point
sequences. -/
def lexLe : List Char → List Char → Bool
  | [], _ => true
  | _ :: _, [] => false
  | a :: as_, b :: bs =>
    if a.toNat < b.toNat then true
    else if b.toNat < a.toNat then false
    else lexLe as_ bs

/-- Python `a < b` on strings. -/
def strLt (a b : String) : Bool := lexLt a.data b.data

/-- Python `a <= b` on strings. -/
def strLe (a b : String) : Bool := lexLe a.data b.data

/-- The comparison each closure performs: plain Python string comparison
(lexicographic on code points, never numeric). -/
def applyOp : Op → String → String → Bool
  | .eq, a, b => a == b
  | .ne, a, b => !(a == b)
  | .lt, a, b => strLt a b
  | .le, a, b => strLe a b
  | .gt, a, b => strLt b a
  | .ge, a, b => strLe b a

/-- Evaluating a compiled predicate on a row: `row[left]` raises `KeyError`
when the column is absent, otherwise the string comparison is returned. -/
def evalPred (p : Pred) (r : Row) : Except Err Bool :=
  match rowGet r p.left with
  | none => .error (.rowKey p.left)
  | some s => .ok (applyOp p.op s p.right)

/-! ### The WHERE-condition regex

`re.match` of `(?P<left>\w+)\s*(?P<operator>=|!=|<|<=|>|>=)\s*(?P<right>.+)`
(VERBOSE).  `\w+` takes the maximal leading run of word characters (no
shorter run can ever help, since no alternative of the operator group starts
with a word character); the first `\s*` likewise takes the maximal run of
whitespace (no alternative starts with whitespace).  The operator group
tries its alternatives left to right and commits to the first one after
which the rest of the pattern can still match; the rest of the pattern
(`\s*.+`) can match the remainder exactly when the remainder does not
consist solely of newline characters (`.` excludes newlines, `\s` includes
them).  The captured `right` is then `.strip()`ped by the caller; composed
with the whitespace handling this yields the remainder trimmed of
surrounding whitespace and (in the newline-free case relevant throughout)
of nothing else.  All claims, witnesses and counterexamples use
newline-free text, where the `takeWhile (· ≠ newline)` step below is the
identity on the remainder. -/

/-- Python `\w` on ASCII text: letters, digits, underscore. -/
def isWordChar (c : Char) : Bool := c.isAlphanum || c = '_'

/-- Python `\s` on ASCII text. -/
def isPySpace (c : Char) : Bool :=
  c = ' ' || c = '\t' || c = '\n' || c = '\x0d' || c = '\x0c' || c = '\x0b'

/-- Python `str.strip()`. -/
def trimChars (cs : List Char) : List Char :=
  ((cs.dropWhile isPySpace).reverse.dropWhile isPySpace).reverse

/-- What the tail `\s*(?P<right>.+)` of the condition regex captures from
the remainder after the operator, composed with the `.strip()` in the caller:
`none` when the tail cannot match (remainder empty or newlines only). -/
def condRight (rem : List Char) : Option (List Char) :=
  if rem.all (· = '\n') then none
  else
    let ws := (rem.takeWhile isPySpace).length
    if ws < rem.length then some (trimChars ((rem.drop ws).takeWhile (· ≠ '\n')))
    else some []

/-- The alternatives of the operator group, in the order the regex lists them:
`=|!=|<|<=|>|>=`. -/
def opAlts : List (List Char) := [['='], ['!', '='], ['<'], ['<', '='], ['>'], ['>', '=']]

/-- First-match alternation: the regex engine commits to the first
alternative that is a prefix of the text and after which the rest of the
pattern still matches. -/
def firstOpMatch : List (List Char) → List Char → Option (List Char × List Char)
  | [], _ => none
  | op :: ops, s =>
    if s.take op.length = op then
      match condRight (s.drop op.length) with
      | some r => some (op, r)
      | none => firstOpMatch ops s
    else firstOpMatch ops s

/-- The if/elif dispatch of `_parse_where` on the operator string. -/
def opOfToken : List Char → Option Op
  | ['='] => some .eq
  | ['!', '='] => some .ne
  | ['<'] => some .lt
  | ['<', '='] => some .le
  | ['>'] => some .gt
  | ['>', '='] => some .ge
  | _ => none

/-- `ToySQLParser._parse_where`: match the condition regex, then dispatch on
the operator string; a failed match raises the generic condition error, an
operator string outside the dispatch raises the distinct operator error. -/
def parseWhere (condition : String) : Except Err Pred :=
  let cs := condition.data
  let left := cs.takeWhile isWordChar
  if left.isEmpty then .error (.unsupportedCondition condition)
  else
    let rest := (cs.drop left.length).dropWhile isPySpace
    match firstOpMatch opAlts rest with
    | none => .error (.unsupportedCondition condition)
    | some (opTok, right) =>
      match opOfToken opTok with
      | some op => .ok ⟨String.mk left, op, String.mk right⟩
      | none => .error (.unsupportedOperator (String.mk opTok))

/-! ### Parsed statements

Only the fields execution consults are carried; `where_lambda` holds the
compiled predicate (`None` in the source when the statement has no WHERE
clause). -/

structure SelectSQL : Type where
  columns : List String
  table : String
  where_lambda : Option Pred := none
  orderby : Option String := none
deriving DecidableEq

structure InsertSQL : Type where
  table : String
  columns : List String
  values : List String
deriving DecidableEq

structure UpdateSQL : Type where
  table : String
  assignments : List (String × String)
  where_lambda : Option Pred := none
deriving DecidableEq

structure DeleteSQL : Type where
  table : String
  where_lambda : Option Pred := none
deriving DecidableEq

/-! ### Execution engine -/

/-- `list(filter(pred, rows))`: predicate exceptions propagate at the first
failing row. -/
def filterWhere (p : Pred) : List Row → Except Err (List Row)
  | [] => .ok []
  | r :: rs =>
    match evalPred p r with
    | .error e => .error e
    | .ok b =>
      match filterWhere p rs with
      | .error e => .error e
      | .ok rest => .ok (if b then r :: rest else rest)

/-- The `if query.where_lambda:` guard of `_execute_select`: with no
predicate the rows pass through untouched (and unaliased). -/
def filterWhereOpt : Option Pred → List Row → Except Err (List Row)
  | none, rows => .ok rows
  | some p, rows => filterWhere p rows

/-- `row[col]` as a sort key, total on rows that carry the column (CPython
computes all keys, in list order, before reordering anything; `sortKeysOk`
below is the success condition of that precomputation). -/
def rowKeyD (col : String) (r : Row) : String := (rowGet r col).getD ""

/-- All rows carry the sort column, so the key precomputation of
`list.sort(key=...)` succeeds. -/
def sortKeysOk (col : String) (rows : List Row) : Bool :=
  rows.all (fun r => (rowGet r col).isSome)

/-- `result.sort(key=lambda row: row[col])`: a stable ascending sort by the
text value of the column.  Stable sorts by a total preorder agree
extensionally, so the CPython Timsort is embedded as insertion sort. -/
def sortByCol (col : String) (rows : List Row) : List Row :=
  List.insertionSort (fun a b => strLe (rowKeyD col a) (rowKeyD col b) = true) rows

/-- The loop of `{col: row[col] for col in cols}`: builds the projected
row left to right, raising `KeyError` at the first requested column absent
from the row. -/
def projectRowAux (r : Row) : List String → Row → Except Err Row
  | [], acc => .ok acc
  | c :: cs, acc =>
    match rowGet r c with
    | none => .error (.rowKey c)
    | some v => projectRowAux r cs (rowSet acc c v)

/-- `{col: row[col] for col in cols}`. -/
def projectRow (cols : List String) (r : Row) : Except Err Row :=
  projectRowAux r cols []

/-- The projection list comprehension of `_execute_select`. -/
def projectRows (cols : List String) : List Row → Except Err (List Row)
  | [] => .ok []
  | r :: rs =>
    match projectRow cols r with
    | .error e => .error e
    | .ok r' =>
      match projectRows cols rs with
      | .error e => .error e
      | .ok rest => .ok (r' :: rest)

/-- `if query.columns != ["*"]: result = [...]`. -/
def projectResult (cols : List String) (rows : List Row) : Except Err (List Row) :=
  if cols = ["*"] then .ok rows else projectRows cols rows

/-- `ToyDB._execute_select`.  `result = table` aliases the stored list;
`list(filter(...))` replaces the alias with a fresh list, so the in-place
`result.sort(...)` reorders the *stored* table exactly when no WHERE clause
is present.  The returned pair is (result, store after the statement),
where the store component also reflects mutations that happened before a
later raise (a key failure during projection still leaves the aliased sort
in place). -/
def executeSelect (q : SelectSQL) (db : Store) : Except Err (List Row) × Store :=
  match alistGet db q.table with
  | none => (.error (.tableNotFound q.table), db)
  | some table =>
    if table.isEmpty then (.error (.tableNotFound q.table), db)
    else
      match filterWhereOpt q.where_lambda table with
      | .error e => (.error e, db)
      | .ok rows =>
        match q.orderby with
        | none =>
          match projectResult q.columns rows with
          | .error e => (.error e, db)
          | .ok res => (.ok res, db)
        | some col =>
          if sortKeysOk col rows then
            let sorted := sortByCol col rows
            let db' := if q.where_lambda.isNone then alistSet db q.table sorted else db
            match projectResult q.columns sorted with
            | .error e => (.error e, db')
            | .ok res => (.ok res, db')
          else (.error (.rowKey col), db)

/-- `zip(columns, values, strict=True)`: raises `ValueError` when the
lengths differ, before anything is appended. -/
def zipStrict : List String → List String → Except Err (List (String × String))
  | [], [] => .ok []
  | a :: as_, b :: bs =>
    match zipStrict as_ bs with
    | .error e => .error e
    | .ok rest => .ok ((a, b) :: rest)
  | _, _ => .error .columnValueMismatch

/-- `ToyDB._execute_insert`: presence is checked with `is None` (an existing
empty table passes), the row dict is built with a strict zip, and only then
appended at the end of the stored list. -/
def executeInsert (q : InsertSQL) (db : Store) : Except Err Unit × Store :=
  match alistGet db q.table with
  | none => (.error (.tableNotFound q.table), db)
  | some table =>
    match zipStrict q.columns q.values with
    | .error e => (.error e, db)
    | .ok pairs => (.ok (), alistSet db q.table (table ++ [rowOfPairs pairs]))

/-- The body of the `_execute_update` loop on one row:
`for col, val in assignments: row[col] = val`. -/
def updateRow (asgn : List (String × String)) (r : Row) : Row := rowInsertAll r asgn

/-- The `_execute_update` scan, first row to last: rows failing the predicate
are skipped, the rest are mutated in place; a predicate exception stops the
scan with the earlier rows already mutated and the rest untouched. -/
def updateRows (w : Option Pred) (asgn : List (String × String)) :
    List Row → Except Err Unit × List Row
  | [] => (.ok (), [])
  | r :: rs =>
    match w with
    | none =>
      let rest := updateRows w asgn rs
      (rest.1, updateRow asgn r :: rest.2)
    | some p =>
      match evalPred p r with
      | .error e => (.error e, r :: rs)
      | .ok b =>
        let rest := updateRows w asgn rs
        (rest.1, (if b then updateRow asgn r else r) :: rest.2)

/-- `ToyDB._execute_update`: `if not table` treats an empty table as
missing; the scan mutates the stored list in place, so the store reflects
it even when the scan stops at a predicate exception. -/
def executeUpdate (q : UpdateSQL) (db : Store) : Except Err Unit × Store :=
  match alistGet db q.table with
  | none => (.error (.tableNotFound q.table), db)
  | some table =>
    if table.isEmpty then (.error (.tableNotFound q.table), db)
    else
      let stepped := updateRows q.where_lambda q.assignments table
      (stepped.1, alistSet db q.table stepped.2)

/-- The per-row guard of the delete comprehension,
`not (query.where_lambda and query.where_lambda(row))`: with no predicate
the conjunction is `None`, which is falsy, so every row is kept. -/
def deleteSurvivors (w : Option Pred) : List Row → Except Err (List Row)
  | [] => .ok []
  | r :: rs =>
    match w with
    | none =>
      match deleteSurvivors w rs with
      | .error e => .error e
      | .ok rest => .ok (r :: rest)
    | some p =>
      match evalPred p r with
      | .error e => .error e
      | .ok b =>
        match deleteSurvivors w rs with
        | .error e => .error e
        | .ok rest => .ok (if b then rest else r :: rest)

/-- `ToyDB._execute_delete`: `if not table` treats an empty table as
missing; the surviving rows are computed by a comprehension (predicate
exceptions propagate before the store is reassigned) and then stored. -/
def executeDelete (q : DeleteSQL) (db : Store) : Except Err Unit × Store :=
  match alistGet db q.table with
  | none => (.error (.tableNotFound q.table), db)
  | some table =>
    if table.isEmpty then (.error (.tableNotFound q.table), db)
    else
      match deleteSurvivors q.where_lambda table with
      | .error e => (.error e, db)
      | .ok kept => (.ok (), alistSet db q.table kept)

/-- `ToyDB.create_table`: duplicate names are rejected; the declared
columns are accepted but never stored — the new entry is always the empty
table. -/
def create_table (db : Store) (name : String) (columns : List String) : Except Err Store :=
  if (alistGet db name).isSome then .error (.tableExists name)
  else .ok (db ++ [(name, [])])

/-! ### Order properties of the Python string comparison -/

theorem lexLe_refl : ∀ l : List Char, lexLe l l = true
  | [] => rfl
  | a :: l => by simp [lexLe, lexLe_refl l]

theorem lexLe_total : ∀ a b : List Char, lexLe a b = true ∨ lexLe b a = true
  | [], _ => .inl rfl
  | _ :: _, [] => .inr rfl
  | a :: as_, b :: bs => by
    rcases Nat.lt_trichotomy a.toNat b.toNat with h | h | h
    · left; simp [lexLe, h]
    · have hab : ¬ a.toNat < b.toNat := by omega
      have hba : ¬ b.toNat < a.toNat := by omega
      rcases lexLe_total as_ bs with ih | ih
      · left; simp [lexLe, hab, hba, ih]
      · right; simp [lexLe, hab, hba, ih]
    · right; simp [lexLe, h]

theorem lexLe_trans : ∀ a b c : List Char,
    lexLe a b = true → lexLe b c = true → lexLe a c = true
  | [], _, _, _, _ => rfl
  | _ :: _, [], _, h1, _ => by simp [lexLe] at h1
  | _ :: _, _ :: _, [], _, h2 => by simp [lexLe] at h2
  | a :: as_, b :: bs, c :: cs, h1, h2 => by
    simp only [lexLe] at h1 h2 ⊢
    split_ifs at h1 h2 ⊢ <;>
      first
        | rfl
        | omega
        | exact lexLe_trans as_ bs cs h1 h2

theorem strLe_refl (s : String) : strLe s s = true := lexLe_refl s.data

theorem strLe_total (a b : String) : strLe a b = true ∨ strLe b a = true :=
  lexLe_total a.data b.data

theorem strLe_trans {a b c : String} (h1 : strLe a b = true) (h2 : strLe b c = true) :
    strLe a c = true := lexLe_trans a.data b.data c.data h1 h2

/-! ### Dict (association list) lemmas -/

theorem alistGet_alistSet {β : Type} :
    ∀ (l : List (String × β)) (k : String) (v : β) (k' : String),
      alistGet (alistSet l k v) k' = if k = k' then some v else alistGet l k'
  | [], k, v, k' => by simp [alistGet, alistSet]
  | (a, w) :: rest, k, v, k' => by
    simp only [alistSet]
    by_cases hak : a = k
    · subst hak
      by_cases hk' : a = k' <;> simp [alistGet, hk']
    · rw [if_neg hak]
      by_cases hk' : k = k'
      · subst hk'
        simp [alistGet, hak, alistGet_alistSet rest k v k]
      · by_cases hak' : a = k'
        · subst hak'
          simp [alistGet, hk']
        · simp [alistGet, hak', hk', alistGet_alistSet rest k v k']

theorem rowInsertAll_cons (r : Row) (p : String × String) (ps : List (String × String)) :
    rowInsertAll r (p :: ps) = rowInsertAll (rowSet r p.1 p.2) ps := rfl

theorem rowGet_rowSet (r : Row) (c v c' : String) :
    rowGet (rowSet r c v) c' = if c = c' then some v else rowGet r c' :=
  alistGet_alistSet r c v c'

theorem rowGet_rowInsertAll_of_notMem (c : String) :
    ∀ (ps : List (String × String)) (r : Row), c ∉ ps.map Prod.fst →
      rowGet (rowInsertAll r ps) c = rowGet r c
  | [], _, _ => rfl
  | (a, b) :: ps, r, h => by
    rw [List.map_cons] at h
    have hmem : c ∉ ps.map Prod.fst := fun hc => h (List.mem_cons_of_mem _ hc)
    have hac : a ≠ c := fun hac => h (hac ▸ List.mem_cons_self _ _)
    rw [rowInsertAll_cons, rowGet_rowInsertAll_of_notMem c ps _ hmem]
    show rowGet (rowSet r a b) c = rowGet r c
    rw [rowGet_rowSet, if_neg hac]

theorem rowGet_rowInsertAll_of_mem :
    ∀ (ps : List (String × String)) (r : Row), (ps.map Prod.fst).Nodup →
      ∀ p ∈ ps, rowGet (rowInsertAll r ps) p.1 = some p.2
  | [], _, _, p, hp => absurd hp (List.not_mem_nil p)
  | (a, b) :: ps, r, hnd, p, hp => by
    rw [List.map_cons, List.nodup_cons] at hnd
    rcases List.mem_cons.mp hp with h | h
    · subst h
      rw [rowInsertAll_cons, rowGet_rowInsertAll_of_notMem _ ps _ hnd.1]
      show rowGet (rowSet r a b) a = some b
      rw [rowGet_rowSet, if_pos rfl]
    · exact rowGet_rowInsertAll_of_mem ps _ hnd.2 p h

/-! ### Stability and sortedness of the embedded sort -/

theorem filter_orderedInsert (col v : String) (x : Row) :
    ∀ ys : List Row,
      (List.orderedInsert (fun a b => strLe (rowKeyD col a) (rowKeyD col b) = true) x
          ys).filter (fun r => rowKeyD col r == v)
        = (x :: ys).filter (fun r => rowKeyD col r == v)
  | [] => rfl
  | y :: ys => by
    rw [List.orderedInsert]
    by_cases hxy : strLe (rowKeyD col x) (rowKeyD col y) = true
    · rw [if_pos hxy]
    · rw [if_neg hxy]
      have ih := filter_orderedInsert col v x ys
      by_cases hx : (rowKeyD col x == v) = true
      · have hy : ¬ (rowKeyD col y == v) = true := by
          intro hy
          exact hxy (by rw [eq_of_beq hx, eq_of_beq hy]; exact strLe_refl v)
        simp only [List.filter_cons, hx, hy, if_pos, if_neg, Bool.false_eq_true,
          ite_false, ite_true, ih]
      · by_cases hy : (rowKeyD col y == v) = true <;>
          simp only [List.filter_cons, hx, hy, Bool.false_eq_true, ite_false,
            ite_true, ih]

theorem filter_sortByCol (col v : String) :
    ∀ l : List Row,
      (sortByCol col l).filter (fun r => rowKeyD col r == v)
        = l.filter (fun r => rowKeyD col r == v)
  | [] => rfl
  | x :: l => by
    show (List.orderedInsert _ x (sortByCol col l)).filter _ = _
    rw [filter_orderedInsert col v x (sortByCol col l)]
    simp only [List.filter_cons, filter_sortByCol col v l]

theorem sorted_sortByCol (col : String) (l : List Row) :
    (sortByCol col l).Sorted (fun a b => strLe (rowKeyD col a) (rowKeyD col b) = true) := by
  haveI : IsTotal Row (fun a b => strLe (rowKeyD col a) (rowKeyD col b) = true) :=
    ⟨fun a b => strLe_total _ _⟩
  haveI : IsTrans Row (fun a b => strLe (rowKeyD col a) (rowKeyD col b) = true) :=
    ⟨fun _ _ _ h1 h2 => strLe_trans h1 h2⟩
  exact List.sorted_insertionSort _ _

/-! ### Strict zip lemmas -/

theorem zipStrict_ok : ∀ (as_ bs : List String), as_.length = bs.length →
    zipStrict as_ bs = .ok (as_.zip bs)
  | [], [], _ => rfl
  | [], _ :: _, h => by simp at h
  | _ :: _, [], h => by simp at h
  | a :: as_, b :: bs, h => by
    have hlen : as_.length = bs.length := by simpa using h
    simp [zipStrict, zipStrict_ok as_ bs hlen]

theorem zipStrict_mismatch : ∀ (as_ bs : List String), as_.length ≠ bs.length →
    zipStrict as_ bs = .error .columnValueMismatch
  | [], [], h => absurd rfl h
  | [], _ :: _, _ => rfl
  | _ :: _, [], _ => rfl
  | a :: as_, b :: bs, h => by
    have hlen : as_.length ≠ bs.length := fun hh => h (by simpa using hh)
    simp [zipStrict, zipStrict_mismatch as_ bs hlen]

/-! ### Condition-regex lemmas -/

theorem firstOpMatch_mem : ∀ (alts : List (List Char)) (s opTok r : List Char),
    firstOpMatch alts s = some (opTok, r) → opTok ∈ alts
  | [], _, _, _, h => by simp [firstOpMatch] at h
  | o :: os, s, opTok, r, h => by
    rw [firstOpMatch] at h
    by_cases hpre : s.take o.length = o
    · rw [if_pos hpre] at h
      cases hc : condRight (s.drop o.length) with
      | some rr =>
        rw [hc] at h
        injection h with h'
        injection h' with h1 _
        exact h1 ▸ List.mem_cons_self o os
      | none =>
        rw [hc] at h
        exact List.mem_cons_of_mem _ (firstOpMatch_mem os s opTok r h)
    · rw [if_neg hpre] at h
      exact List.mem_cons_of_mem _ (firstOpMatch_mem os s opTok r h)

theorem opOfToken_isSome_of_mem : ∀ opTok ∈ opAlts, (opOfToken opTok).isSome = true := by
  decide

/-! ### Update-scan lemmas -/

theorem updateRows_ok_length (w : Option Pred) (asgn : List (String × String)) :
    ∀ (rows out : List Row), updateRows w asgn rows = (.ok (), out) →
      out.length = rows.length
  | [], out, h => by
    simp only [updateRows] at h
    rw [← (Prod.mk.injEq .. |>.mp h).2]
  | r :: rs, out, h => by
    match w with
    | none =>
      simp only [updateRows] at h
      cases hrec : updateRows none asgn rs with
      | mk res rest =>
        rw [hrec] at h
        have h1 := (Prod.mk.injEq .. |>.mp h).1
        have h2 := (Prod.mk.injEq .. |>.mp h).2
        subst h1
        rw [← h2]
        simp [updateRows_ok_length none asgn rs rest hrec]
    | some p =>
      simp only [updateRows] at h
      cases hev : evalPred p r with
      | error e => rw [hev] at h; simp at h
      | ok b =>
        rw [hev] at h
        cases hrec : updateRows (some p) asgn rs with
        | mk res rest =>
          rw [hrec] at h
          have h1 := (Prod.mk.injEq .. |>.mp h).1
          have h2 := (Prod.mk.injEq .. |>.mp h).2
          subst h1
          rw [← h2]
          simp [updateRows_ok_length (some p) asgn rs rest hrec]

theorem updateRows_ok_get (w : Option Pred) (asgn : List (String × String)) :
    ∀ (rows out : List Row), updateRows w asgn rows = (.ok (), out) →
      ∀ (i : Nat) (hi : i < rows.length) (hi' : i < out.length),
        (w = none → out.get ⟨i, hi'⟩ = updateRow asgn (rows.get ⟨i, hi⟩)) ∧
        (∀ p', w = some p' →
          (evalPred p' (rows.get ⟨i, hi⟩) = .ok true →
            out.get ⟨i, hi'⟩ = updateRow asgn (rows.get ⟨i, hi⟩)) ∧
          (evalPred p' (rows.get ⟨i, hi⟩) = .ok false →
            out.get ⟨i, hi'⟩ = rows.get ⟨i, hi⟩))
  | [], _, _, i, hi, _ => absurd hi (by simp)
  | r :: rs, out, h, i, hi, hi' => by
    match w with
    | none =>
      simp only [updateRows] at h
      cases hrec : updateRows none asgn rs with
      | mk res rest =>
        rw [hrec] at h
        have h1 := (Prod.mk.injEq .. |>.mp h).1
        have h2 := (Prod.mk.injEq .. |>.mp h).2
        subst h1
        subst h2
        match i with
        | 0 =>
          refine ⟨fun _ => rfl, fun p' hp' => Option.noConfusion hp'⟩
        | i + 1 =>
          have hiN : i < rs.length := by simpa using hi
          have hiN' : i < rest.length := by simpa using hi'
          have ih := updateRows_ok_get none asgn rs rest hrec i hiN hiN'
          simpa using ih
    | some p =>
      simp only [updateRows] at h
      cases hev : evalPred p r with
      | error e => rw [hev] at h; simp at h
      | ok b =>
        rw [hev] at h
        cases hrec : updateRows (some p) asgn rs with
        | mk res rest =>
          rw [hrec] at h
          have h1 := (Prod.mk.injEq .. |>.mp h).1
          have h2 := (Prod.mk.injEq .. |>.mp h).2
          subst h1
          subst h2
          match i with
          | 0 =>
            refine ⟨fun hn => Option.noConfusion hn, fun p' hp' => ?_⟩
            have hpp : p = p' := by injection hp'
            subst hpp
            constructor
            · intro hT
              have hb : b = true := by
                have h' := hev.symm.trans hT
                injection h'
              subst hb
              rfl
            · intro hF
              have hb : b = false := by
                have h' := hev.symm.trans hF
                injection h'
              subst hb
              rfl
          | i + 1 =>
            have hiN : i < rs.length := by simpa using hi
            have hiN' : i < rest.length := by simpa using hi'
            have ih := updateRows_ok_get (some p) asgn rs rest hrec i hiN hiN'
            simpa using ih

theorem alistGet_append_self {β : Type} :
    ∀ (l : List (String × β)) (k : String) (v : β), alistGet l k = none →
      alistGet (l ++ [(k, v)]) k = some v
  | [], k, v, _ => by simp [alistGet]
  | (a, w) :: rest, k, v, h => by
    simp only [alistGet, List.cons_append] at h ⊢
    by_cases hak : a = k
    · simp [hak] at h
    · rw [if_neg hak] at h ⊢
      exact alistGet_append_self rest k v h

theorem alistGet_append_other {β : Type} :
    ∀ (l : List (String × β)) (k : String) (v : β) (t : String), t ≠ k →
      alistGet (l ++ [(k, v)]) t = alistGet l t
  | [], k, v, t, h => by simp [alistGet, Ne.symm h]
  | (a, w) :: rest, k, v, t, h => by
    simp only [alistGet, List.cons_append]
    by_cases hat : a = t
    · rw [if_pos hat, if_pos hat]
    · rw [if_neg hat, if_neg hat]
      exact alistGet_append_other rest k v t h

/-! ## Claim theorems -/

/-- C1: the claim says `DELETE FROM T` with no WHERE clause empties `T`.
The code does the opposite: the comprehension keeps a row unless
`query.where_lambda and query.where_lambda(row)` is truthy, and with no
predicate that conjunction is `None` (falsy), so every row survives.  On a
one-row table the delete succeeds and the table still holds its row. -/
theorem delete_without_where_keeps_all_rows :
    executeDelete ⟨"users", none⟩ [("users", [[("id", "1")]])]
      = (.ok (), [("users", [[("id", "1")]])]) ∧
    alistGet [("users", [[("id", "1")]])] "users" ≠ some [] := by
  exact ⟨by decide, by decide⟩

/-- C2: the claim says a successful Select never changes the store.  With
an ORDER BY and no WHERE clause, `result` still aliases the stored list
when `result.sort(...)` runs, so the sort is persisted: on a two-row table
stored in descending order, the select succeeds and the store afterwards
holds the rows ascending, differing from the store before. -/
theorem select_orderby_persists_sort_into_store :
    executeSelect ⟨["*"], "t", none, some "a"⟩ [("t", [[("a", "2")], [("a", "1")]])]
      = (.ok [[("a", "1")], [("a", "2")]], [("t", [[("a", "1")], [("a", "2")]])]) ∧
    ([("t", [[("a", "1")], [("a", "2")]])] : Store) ≠ [("t", [[("a", "2")], [("a", "1")]])] := by
  exact ⟨by decide, by decide⟩

/-- C3: the claim says the two-character operators are recognized as a
whole, e.g. that `a <= 5` compiles to operator `<=` with right operand `5`.
The regex alternation `=|!=|<|<=|>|>=` commits to the first alternative
that lets the rest of the pattern match, so `<` wins over `<=` and `>` over
`>=`: `a <= 5` compiles to `<` with right operand `= 5` (and likewise for
`>=`); only `!=` is recognized whole, because `=` does not match `!`. -/
theorem two_char_comparison_tokens_misparsed :
    parseWhere "a <= 5" = .ok ⟨"a", Op.lt, "= 5"⟩ ∧
    parseWhere "a >= 5" = .ok ⟨"a", Op.gt, "= 5"⟩ ∧
    parseWhere "a != 5" = .ok ⟨"a", Op.ne, "5"⟩ ∧
    (Except.ok (⟨"a", Op.lt, "= 5"⟩ : Pred) : Except Err Pred) ≠ .ok ⟨"a", Op.le, "5"⟩ := by
  exact ⟨by decide, by decide, by decide, by decide⟩

/-- C4 counterexample: on the clause `a ~ 5` — an identifier, an operator
token `~` outside the supported six, and a right-hand side — compilation
fails with the generic condition error quoting the whole clause, not with
a distinct error identifying the operator token `~`. -/
theorem unsupported_operator_gets_generic_condition_error :
    parseWhere "a ~ 5" = .error (.unsupportedCondition "a ~ 5") ∧
    Err.unsupportedCondition "a ~ 5" ≠ Err.unsupportedOperator "~" := by
  exact ⟨by decide, by decide⟩

/-- C4 (amended): every compilation failure of a WHERE clause carries the
generic unsupported-condition error quoting the entire clause text; the
distinct unsupported-operator error is unreachable, because the operator
group of the regex can only produce the six tokens its dispatch handles. -/
theorem where_compile_failure_is_generic (cond : String) :
    ∀ e, parseWhere cond = .error e → e = Err.unsupportedCondition cond := by
  intro e h
  simp only [parseWhere] at h
  by_cases hl : (cond.data.takeWhile isWordChar).isEmpty
  · rw [if_pos hl] at h
    injection h with h'
    exact h'.symm
  · rw [if_neg hl] at h
    cases hm : firstOpMatch opAlts
        ((cond.data.drop (cond.data.takeWhile isWordChar).length).dropWhile isPySpace) with
    | none =>
      rw [hm] at h
      injection h with h'
      exact h'.symm
    | some pair =>
      obtain ⟨opTok, right⟩ := pair
      rw [hm] at h
      dsimp only at h
      have hmem := firstOpMatch_mem opAlts _ opTok right hm
      have hsome := opOfToken_isSome_of_mem opTok hmem
      cases ho : opOfToken opTok with
      | none => rw [ho] at hsome; simp at hsome
      | some op =>
        rw [ho] at h
        exact Except.noConfusion h

/-- C4 witness: instantiating the amended theorem at the concrete failing
clause `a ~ 5`. -/
theorem where_compile_failure_is_generic_witness :
    Err.unsupportedCondition "a ~ 5" = Err.unsupportedCondition "a ~ 5" :=
  where_compile_failure_is_generic "a ~ 5" (Err.unsupportedCondition "a ~ 5") (by decide)

/-- C5: a table that exists in the store with an empty row sequence is
rejected by Select (the `if not table` lookup treats empty as missing),
while Insert on the same table succeeds (its lookup uses `is None`, so
presence in the store suffices). -/
theorem empty_table_select_fails_insert_succeeds
    (db : Store) (t : String) (h : alistGet db t = some [])
    (q : SelectSQL) (hq : q.table = t)
    (cols vals : List String) (hlen : cols.length = vals.length) :
    executeSelect q db = (.error (.tableNotFound t), db) ∧
    executeInsert ⟨t, cols, vals⟩ db = (.ok (), alistSet db t [rowOfPairs (cols.zip vals)]) := by
  subst hq
  constructor
  · simp [executeSelect, h]
  · simp [executeInsert, h, zipStrict_ok cols vals hlen]

/-- C5 witness: the concrete store mapping `t` to the empty table. -/
theorem empty_table_quirk_witness :
    executeSelect ⟨["*"], "t", none, none⟩ [("t", [])]
      = (.error (.tableNotFound "t"), [("t", [])]) ∧
    executeInsert ⟨"t", ["a"], ["1"]⟩ [("t", [])]
      = (.ok (), alistSet [("t", [])] "t" [rowOfPairs (["a"].zip ["1"])]) :=
  empty_table_select_fails_insert_succeeds [("t", [])] "t" (by decide)
    ⟨["*"], "t", none, none⟩ rfl ["a"] ["1"] (by decide)

/-- C6: Insert on an existing table fails with the strict-pairing error
and leaves the store untouched when the column and value lists have
different lengths (the strict zip raises while the row dict is being
built, before `append` runs); with equal lengths it appends exactly one
row at the end, the dict of the positional pairs, and on duplicate-free
columns that row maps each `columns[i]` to `values[i]`. -/
theorem insert_strict_pairing (q : InsertSQL) (db : Store) (table : Table)
    (ht : alistGet db q.table = some table) :
    (q.columns.length ≠ q.values.length →
      executeInsert q db = (.error .columnValueMismatch, db)) ∧
    (q.columns.length = q.values.length →
      executeInsert q db
          = (.ok (), alistSet db q.table (table ++ [rowOfPairs (q.columns.zip q.values)])) ∧
      (q.columns.Nodup → ∀ cv ∈ q.columns.zip q.values,
        rowGet (rowOfPairs (q.columns.zip q.values)) cv.1 = some cv.2)) := by
  refine ⟨fun hne => ?_, fun hlen => ⟨?_, fun hnd cv hcv => ?_⟩⟩
  · simp [executeInsert, ht, zipStrict_mismatch _ _ hne]
  · simp [executeInsert, ht, zipStrict_ok _ _ hlen]
  · refine rowGet_rowInsertAll_of_mem _ [] ?_ cv hcv
    rw [List.map_fst_zip q.columns q.values (le_of_eq hlen)]
    exact hnd

/-- C6 witness: on the empty table, a 2-vs-1 insert fails and changes
nothing, and a 2-vs-2 insert appends the paired row. -/
theorem insert_strict_pairing_witness :
    executeInsert ⟨"t", ["a", "b"], ["1"]⟩ [("t", [])]
      = (.error .columnValueMismatch, [("t", [])]) ∧
    executeInsert ⟨"t", ["a", "b"], ["1", "2"]⟩ [("t", [])]
      = (.ok (), alistSet [("t", [])] "t" ([] ++ [rowOfPairs (["a", "b"].zip ["1", "2"])])) :=
  ⟨(insert_strict_pairing ⟨"t", ["a", "b"], ["1"]⟩ [("t", [])] [] (by decide)).1 (by decide),
   ((insert_strict_pairing ⟨"t", ["a", "b"], ["1", "2"]⟩ [("t", [])] [] (by decide)).2
      (by decide)).1⟩

/-- C7: a Select with `ORDER BY col` that executes successfully (table
present and non-empty, WHERE filter succeeded yielding `fr`, every
filtered row carries `col`, columns `["*"]` so the rows are returned
unprojected) returns exactly the stable ascending sort of `fr` by the text
value at `col`: the result is non-decreasing under the Python string order,
and for every key value the rows carrying it appear in the same relative
order as in `fr` (ties keep their pre-sort, i.e. insertion, order). -/
theorem select_orderby_sorted_stable (q : SelectSQL) (db : Store)
    (table fr : List Row) (col : String)
    (ht : alistGet db q.table = some table) (hne : table.isEmpty = false)
    (hf : filterWhereOpt q.where_lambda table = .ok fr)
    (ho : q.orderby = some col) (hk : sortKeysOk col fr = true)
    (hc : q.columns = ["*"]) :
    (executeSelect q db).1 = .ok (sortByCol col fr) ∧
    (sortByCol col fr).Sorted (fun a b => strLe (rowKeyD col a) (rowKeyD col b) = true) ∧
    (∀ v, (sortByCol col fr).filter (fun r => rowKeyD col r == v)
        = fr.filter (fun r => rowKeyD col r == v)) := by
  refine ⟨?_, sorted_sortByCol col fr, fun v => filter_sortByCol col v fr⟩
  simp [executeSelect, ht, hne, hf, ho, hk, projectResult, hc]

/-- C7 witness: a three-row table with a duplicated key value `2`; the two
tied rows keep their stored relative order in the sorted result. -/
theorem select_orderby_sorted_stable_witness :
    (executeSelect ⟨["*"], "t", none, some "a"⟩
        [("t", [[("a", "2"), ("b", "x")], [("a", "1")], [("a", "2"), ("b", "y")]])]).1
      = .ok (sortByCol "a" [[("a", "2"), ("b", "x")], [("a", "1")], [("a", "2"), ("b", "y")]]) ∧
    (sortByCol "a" [[("a", "2"), ("b", "x")], [("a", "1")], [("a", "2"), ("b", "y")]]).filter
        (fun r => rowKeyD "a" r == "2")
      = [[("a", "2"), ("b", "x")], [("a", "1")], [("a", "2"), ("b", "y")]].filter
        (fun r => rowKeyD "a" r == "2") :=
  ⟨(select_orderby_sorted_stable ⟨["*"], "t", none, some "a"⟩
      [("t", [[("a", "2"), ("b", "x")], [("a", "1")], [("a", "2"), ("b", "y")]])]
      [[("a", "2"), ("b", "x")], [("a", "1")], [("a", "2"), ("b", "y")]]
      [[("a", "2"), ("b", "x")], [("a", "1")], [("a", "2"), ("b", "y")]] "a"
      (by decide) (by decide) rfl rfl (by decide) rfl).1,
   (select_orderby_sorted_stable ⟨["*"], "t", none, some "a"⟩
      [("t", [[("a", "2"), ("b", "x")], [("a", "1")], [("a", "2"), ("b", "y")]])]
      [[("a", "2"), ("b", "x")], [("a", "1")], [("a", "2"), ("b", "y")]]
      [[("a", "2"), ("b", "x")], [("a", "1")], [("a", "2"), ("b", "y")]] "a"
      (by decide) (by decide) rfl rfl (by decide) rfl).2.2 "2"⟩

/-- C8: a successful Update on an existing non-empty table stores a row
sequence of the same length in which every row satisfying the predicate
(or every row, when there is no predicate) is replaced by the result of
applying the assignments in place, every row failing the predicate is
unchanged, and applying the assignments sets each assigned column to its
literal value, creating the column on the row when absent (stated for
duplicate-free assignment keys, which the source dict guarantees). -/
theorem update_scope (q : UpdateSQL) (db : Store) (table out : Table)
    (ht : alistGet db q.table = some table) (hne : table.isEmpty = false)
    (hu : updateRows q.where_lambda q.assignments table = (.ok (), out)) :
    executeUpdate q db = (.ok (), alistSet db q.table out) ∧
    out.length = table.length ∧
    (∀ (i : Nat) (hi : i < table.length) (hi' : i < out.length),
      (q.where_lambda = none →
        out.get ⟨i, hi'⟩ = updateRow q.assignments (table.get ⟨i, hi⟩)) ∧
      (∀ p', q.where_lambda = some p' →
        (evalPred p' (table.get ⟨i, hi⟩) = .ok true →
          out.get ⟨i, hi'⟩ = updateRow q.assignments (table.get ⟨i, hi⟩)) ∧
        (evalPred p' (table.get ⟨i, hi⟩) = .ok false →
          out.get ⟨i, hi'⟩ = table.get ⟨i, hi⟩))) ∧
    ((q.assignments.map Prod.fst).Nodup →
      ∀ (r : Row), ∀ cv ∈ q.assignments,
        rowGet (updateRow q.assignments r) cv.1 = some cv.2) := by
  refine ⟨?_, updateRows_ok_length _ _ _ _ hu, updateRows_ok_get _ _ _ _ hu,
    fun hnd r cv hcv => rowGet_rowInsertAll_of_mem _ r hnd cv hcv⟩
  simp [executeUpdate, ht, hne, hu]

/-- C8 witness: updating `c` to `9` where `a = 1` mutates exactly the
first row (creating column `c` on it) and leaves the second row intact. -/
theorem update_scope_witness :
    executeUpdate ⟨"t", [("c", "9")], some ⟨"a", Op.eq, "1"⟩⟩
        [("t", [[("a", "1")], [("a", "2")]])]
      = (.ok (), alistSet [("t", [[("a", "1")], [("a", "2")]])] "t"
          [[("a", "1"), ("c", "9")], [("a", "2")]]) :=
  (update_scope ⟨"t", [("c", "9")], some ⟨"a", Op.eq, "1"⟩⟩
    [("t", [[("a", "1")], [("a", "2")]])] [[("a", "1")], [("a", "2")]]
    [[("a", "1"), ("c", "9")], [("a", "2")]] (by decide) (by decide) (by decide)).1

/-- C9: evaluating a compiled predicate on a row whose `left` column is
absent propagates the lookup failure (`KeyError(left)`) instead of
returning false; when the column is present with stored text `s`, the
result is the plain Python string comparison of `s` against the literal —
lexicographic on code points per operator, with no numeric coercion. -/
theorem predicate_eval_missing_key_and_string_order (p : Pred) (r : Row) :
    (rowGet r p.left = none → evalPred p r = .error (.rowKey p.left)) ∧
    (∀ s, rowGet r p.left = some s →
      evalPred p r = .ok (applyOp p.op s p.right) ∧
      applyOp p.op s p.right
        = (match p.op with
            | .eq => s == p.right
            | .ne => !(s == p.right)
            | .lt => strLt s p.right
            | .le => strLe s p.right
            | .gt => strLt p.right s
            | .ge => strLe p.right s)) := by
  obtain ⟨l, op, rr⟩ := p
  constructor
  · intro h
    simp [evalPred, h]
  · intro s hs
    refine ⟨by simp [evalPred, hs], ?_⟩
    cases op <;> rfl

/-- C9 witness: with `a` absent the lookup failure propagates; with
`a = "9"` against literal `"10"` the comparison is the string order (under
which `"9" < "10"` is false, showing there is no numeric coercion). -/
theorem predicate_eval_witness :
    evalPred ⟨"a", Op.lt, "10"⟩ [] = .error (.rowKey "a") ∧
    evalPred ⟨"a", Op.lt, "10"⟩ [("a", "9")] = .ok (applyOp Op.lt "9" "10") ∧
    applyOp Op.lt "9" "10" = strLt "9" "10" ∧
    strLt "9" "10" = false :=
  ⟨(predicate_eval_missing_key_and_string_order ⟨"a", Op.lt, "10"⟩ []).1 rfl,
   ((predicate_eval_missing_key_and_string_order ⟨"a", Op.lt, "10"⟩ [("a", "9")]).2
      "9" rfl).1,
   ((predicate_eval_missing_key_and_string_order ⟨"a", Op.lt, "10"⟩ [("a", "9")]).2
      "9" rfl).2,
   by decide⟩

/-- C10: creating a fresh table ignores the declared columns entirely: any
two column lists produce the same resulting engine state, the store maps
the new name to the empty table, and every other name resolves exactly as
before. -/
theorem create_table_state_independent_of_declared_columns
    (db : Store) (name : String) (h : alistGet db name = none) (c1 c2 : List String) :
    create_table db name c1 = create_table db name c2 ∧
    create_table db name c1 = .ok (db ++ [(name, [])]) ∧
    alistGet (db ++ [(name, [])]) name = some [] ∧
    (∀ t, t ≠ name → alistGet (db ++ [(name, [])]) t = alistGet db t) := by
  refine ⟨rfl, ?_, alistGet_append_self db name [] h,
    fun t ht => alistGet_append_other db name [] t ht⟩
  simp [create_table, h]

/-- C10 witness: creating `t` in the empty store with column lists `["a"]`
and `["b"]`. -/
theorem create_table_columns_witness :
    create_table [] "t" ["a"] = create_table [] "t" ["b"] ∧
    create_table [] "t" ["a"] = .ok ([] ++ [("t", [])]) ∧
    alistGet ([] ++ [("t", ([] : Table))]) "t" = some [] ∧
    (∀ s, s ≠ "t" → alistGet ([] ++ [("t", ([] : Table))]) s = alistGet [] s) :=
  create_table_state_independent_of_declared_columns [] "t" (by decide) ["a"] ["b"]

end Tsql
